import Mathlib

set_option autoImplicit false

/-!
Verification development for the rtags daemon sources (`Daemon.cpp`,
`src/ClangThread.cpp`).  The C++ code is shallowly embedded: each C++
function of interest is translated into an executable Lean definition
over explicit state, and the properties of the specification are proved
(or refuted) about those definitions.
-/

/-! ## Locations and the per-audit dependency graph (`ClangThread.cpp`)

`Dep` mirrors `struct Dep : DependencyNode`: a file id, the set of
`includes` edges (keyed by file id in the C++ map; here the list of
target file ids) and the `references` map
(`Hash<uint32_t, Map<Location, Location>>`).  `DepGraph` mirrors
`mDependencies` together with the global `Location::path` table. -/

structure Loc where
  fileId : Nat
  line : Nat
  col : Nat
  deriving DecidableEq

structure Dep where
  fileId : Nat
  includes : List Nat
  references : List (Nat × List (Loc × Loc))
  deriving DecidableEq

structure DepGraph where
  deps : List Dep
  paths : List (Nat × String)
  deriving DecidableEq

def depLookup (g : DepGraph) (i : Nat) : Option Dep :=
  g.deps.find? (fun d => d.fileId == i)

def pathOf (g : DepGraph) (i : Nat) : String :=
  ((g.paths.find? (fun p => p.1 == i)).map (fun p => p.2)).getD ""

def refKeys (d : Dep) : List Nat :=
  d.references.map (fun r => r.1)

/-- The file ids present in the graph (domain of `mDependencies`). -/
def idsOf (g : DepGraph) : List Nat :=
  g.deps.map (fun d => d.fileId)

/-- How many graph file ids are not yet in the seen set; the measure
that bounds the depth of the recursive searches. -/
def unseen (g : DepGraph) (seen : List Nat) : Nat :=
  (idsOf g |>.filter (fun i => !seen.contains i)).length

/-!
`validateHasInclude` translated from `ClangThread.cpp`:

    static bool validateHasInclude(uint32_t ref, const Dep *cur, Set<uint32_t> &seen)
    {
        if (cur->includes.contains(ref))
            return true;
        if (!seen.insert(ref))
            return false;
        for (const auto &pair : cur->includes) {
            if (validateHasInclude(ref, static_cast<const Dep*>(pair.second), seen))
                return true;
        }
        return false;
    }

The C++ recursion has no structural termination argument, so the Lean
translation takes a fuel parameter; `none` means the fuel ran out before
the C++ control flow returned.  The by-reference seen set becomes an
explicit threaded value.  `vhiChildren` is the `for` loop, abstracted
over the recursive call (`recF`). -/

def vhiChildren (g : DepGraph) (recF : Dep → List Nat → Option (Bool × List Nat)) :
    List Nat → List Nat → Option (Bool × List Nat)
  | [], seen => some (false, seen)
  | i :: rest, seen =>
    match depLookup g i with
    | none => vhiChildren g recF rest seen
    | some child =>
      match recF child seen with
      | none => none
      | some (true, s) => some (true, s)
      | some (false, s) => vhiChildren g recF rest s

def validateHasInclude (g : DepGraph) : Nat → Nat → Dep → List Nat → Option (Bool × List Nat)
  | 0, _, _, _ => none
  | Nat.succ fuel, ref, cur, seen =>
    if cur.includes.contains ref then some (true, seen)
    else if seen.contains ref then some (false, seen)
    else vhiChildren g (fun child s => validateHasInclude g fuel ref child s)
      cur.includes (ref :: seen)

/-!
`validateNeedsInclude` translated from `ClangThread.cpp`:

    static bool validateNeedsInclude(const Dep *source, const Dep *header, Set<uint32_t> &seen)
    {
        if (!seen.insert(header->fileId))
            return false;
        if (source->references.contains(header->fileId))
            return true;
        for (const auto &child : header->includes) {
            if (validateNeedsInclude(source, static_cast<const Dep*>(child.second), seen))
                return true;
        }
        return false;
    }
-/

def vniChildren (g : DepGraph) (recF : Dep → List Nat → Option (Bool × List Nat)) :
    List Nat → List Nat → Option (Bool × List Nat)
  | [], seen => some (false, seen)
  | i :: rest, seen =>
    match depLookup g i with
    | none => vniChildren g recF rest seen
    | some child =>
      match recF child seen with
      | none => none
      | some (true, s) => some (true, s)
      | some (false, s) => vniChildren g recF rest s

def validateNeedsInclude (g : DepGraph) (source : Dep) :
    Nat → Dep → List Nat → Option (Bool × List Nat)
  | 0, _, _ => none
  | Nat.succ fuel, header, seen =>
    if seen.contains header.fileId then some (false, seen)
    else
      let seen1 := header.fileId :: seen
      if (refKeys source).contains header.fileId then some (true, seen1)
      else vniChildren g (fun child s => validateNeedsInclude g source fuel child s)
        header.includes seen1

/-! ## The end-of-walk audit, `ClangThread::checkIncludes()` -/

inductive Report where
  | forNoReason (f h : Nat)
  | shouldInclude (f r : Nat) (reasons : List (Loc × Loc))
  deriving DecidableEq

/-- Fuel handed to both searches by the audit; enough for any graph, as
proved below. -/
def auditFuel (g : DepGraph) : Nat :=
  g.deps.length + 2

/-- The first inner loop of `ClangThread::checkIncludes()`: for every
direct include of `it.second`, report "includes ... for no reason" when
`validateNeedsInclude` fails. -/
def auditIncludes (g : DepGraph) (f : Dep) : List Nat → Option (List Report)
  | [] => some []
  | i :: rest =>
    match depLookup g i with
    | none => auditIncludes g f rest
    | some hd =>
      match validateNeedsInclude g f (auditFuel g) hd [] with
      | none => none
      | some (true, _) => auditIncludes g f rest
      | some (false, _) =>
        (auditIncludes g f rest).map (fun l => Report.forNoReason f.fileId hd.fileId :: l)

/-- The second inner loop of `ClangThread::checkIncludes()`: for every
file in `it.second->references` that is not behind one of the exempted
synthetic-header path beginnings, report "should include" when
`validateHasInclude` fails. -/
def auditRefs (g : DepGraph) (f : Dep) :
    List (Nat × List (Loc × Loc)) → Option (List Report)
  | [] => some []
  | (r, reasons) :: rest =>
    if (pathOf g r).startsWith "/usr/include/sys/_types/_"
        || (pathOf g r).startsWith "/usr/include/_types/_" then
      auditRefs g f rest
    else
      match validateHasInclude g (auditFuel g) r f [] with
      | none => none
      | some (true, _) => auditRefs g f rest
      | some (false, _) =>
        (auditRefs g f rest).map (fun l => Report.shouldInclude f.fileId r reasons :: l)

/-- One iteration of the outer loop of `ClangThread::checkIncludes()`:
system-path files are skipped entirely. -/
def auditDep (isSystem : String → Bool) (g : DepGraph) (f : Dep) : Option (List Report) :=
  if isSystem (pathOf g f.fileId) then some []
  else
    match auditIncludes g f f.includes with
    | none => none
    | some a =>
      match auditRefs g f f.references with
      | none => none
      | some b => some (a ++ b)

/-- `ClangThread::checkIncludes()`, the no-argument end-of-walk audit:
iterate the dependency map and collect every report written to the
connection.  `Path::isSystem` lives outside this repository, so it is a
parameter. -/
def checkIncludes (isSystem : String → Bool) (g : DepGraph) : Option (List Report) :=
  go g.deps
where
  go : List Dep → Option (List Report)
    | [] => some []
    | f :: rest =>
      match auditDep isSystem g f with
      | none => none
      | some a =>
        match go rest with
        | none => none
        | some b => some (a ++ b)

/-- Transitive reachability along the `includes` relation: a direct
include edge, or an include edge followed by a chain. -/
inductive IncludePath (g : DepGraph) : Nat → Nat → Prop where
  | direct : ∀ f r d, depLookup g f = some d → r ∈ d.includes → IncludePath g f r
  | step : ∀ f m r d, depLookup g f = some d → m ∈ d.includes →
      IncludePath g m r → IncludePath g f r

/-! ## Termination of the searches (cycle safety) -/

theorem contains_eq_decide (l : List Nat) (x : Nat) : l.contains x = decide (x ∈ l) := by
  by_cases h : x ∈ l <;> simp [h, List.elem_iff, List.contains]

theorem length_filter_le {α : Type} (l : List α) (p q : α → Bool)
    (hpq : ∀ y, q y = true → p y = true) :
    (l.filter q).length ≤ (l.filter p).length := by
  induction l with
  | nil => simp
  | cons a t ih =>
    by_cases hq : q a = true
    · simp only [List.filter, hq, hpq a hq, List.length_cons]
      omega
    · simp only [List.filter, eq_false_of_ne_true hq]
      by_cases hp : p a = true
      · simp only [hp, List.length_cons]
        omega
      · simp only [eq_false_of_ne_true hp]
        exact ih

theorem length_filter_lt {α : Type} (l : List α) (p q : α → Bool) (x : α)
    (hx : x ∈ l) (hpq : ∀ y, q y = true → p y = true)
    (hqx : q x = false) (hpx : p x = true) :
    (l.filter q).length < (l.filter p).length := by
  induction l with
  | nil => simp at hx
  | cons a t ih =>
    by_cases hq : q a = true
    · have hax : a ≠ x := fun h => by rw [h, hqx] at hq; exact Bool.false_ne_true hq
      have hxt : x ∈ t := by
        rcases List.mem_cons.mp hx with h | h
        · exact absurd h.symm hax
        · exact h
      simp only [List.filter, hq, hpq a hq, List.length_cons]
      exact Nat.succ_lt_succ (ih hxt)
    · by_cases hp : p a = true
      · simp only [List.filter, eq_false_of_ne_true hq, hp, List.length_cons]
        exact Nat.lt_succ_of_le (length_filter_le t p q hpq)
      · have hax : a ≠ x := fun h => by rw [h, hpx] at hp; exact hp rfl
        have hxt : x ∈ t := by
          rcases List.mem_cons.mp hx with h | h
          · exact absurd h.symm hax
          · exact h
        simp only [List.filter, eq_false_of_ne_true hq, eq_false_of_ne_true hp]
        exact ih hxt

theorem unseen_le_of_grow (g : DepGraph) (seen seen2 : List Nat)
    (h : ∀ x, x ∈ seen → x ∈ seen2) :
    unseen g seen2 ≤ unseen g seen := by
  refine length_filter_le (idsOf g) _ _ ?_
  intro y hy
  simp only [contains_eq_decide, Bool.not_eq_true', decide_eq_false_iff_not] at hy ⊢
  exact fun hmem => hy (h y hmem)

theorem unseen_cons_lt (g : DepGraph) (x : Nat) (seen : List Nat)
    (hx : x ∈ idsOf g) (hns : x ∉ seen) :
    unseen g (x :: seen) < unseen g seen := by
  refine length_filter_lt (idsOf g) _ _ x hx ?_ ?_ ?_
  · intro y hy
    simp only [contains_eq_decide, Bool.not_eq_true', decide_eq_false_iff_not,
      List.mem_cons] at hy ⊢
    exact fun hmem => hy (Or.inr hmem)
  · simp [contains_eq_decide]
  · simp [contains_eq_decide, hns]

theorem depLookup_mem (g : DepGraph) (i : Nat) (d : Dep) (h : depLookup g i = some d) :
    d ∈ g.deps :=
  List.mem_of_find?_eq_some h

theorem depLookup_fileId (g : DepGraph) (i : Nat) (d : Dep) (h : depLookup g i = some d) :
    d.fileId = i := by
  have := List.find?_some h
  simpa using this

theorem vniChildren_grows (g : DepGraph) (recF : Dep → List Nat → Option (Bool × List Nat))
    (hrec : ∀ hd sn b s2, recF hd sn = some (b, s2) → ∀ x, x ∈ sn → x ∈ s2) :
    ∀ l sn b s2, vniChildren g recF l sn = some (b, s2) → ∀ x, x ∈ sn → x ∈ s2 := by
  intro l
  induction l with
  | nil =>
    intro sn b s2 h x hx
    simp only [vniChildren, Option.some.injEq, Prod.mk.injEq] at h
    exact h.2 ▸ hx
  | cons i rest ih =>
    intro sn b s2 h x hx
    simp only [vniChildren] at h
    split at h
    · exact ih sn b s2 h x hx
    · next child hdl =>
      split at h
      · cases h
      · next s hr =>
        simp only [Option.some.injEq, Prod.mk.injEq] at h
        exact h.2 ▸ hrec child sn true s hr x hx
      · next s hr =>
        exact ih s b s2 h x (hrec child sn false s hr x hx)

theorem validateNeedsInclude_grows (g : DepGraph) (src : Dep) :
    ∀ fuel (hdr : Dep) sn b s2,
      validateNeedsInclude g src fuel hdr sn = some (b, s2) → ∀ x, x ∈ sn → x ∈ s2 := by
  intro fuel
  induction fuel with
  | zero => intro hdr sn b s2 h; simp [validateNeedsInclude] at h
  | succ fuel ih =>
    intro hdr sn b s2 h x hx
    simp only [validateNeedsInclude] at h
    split at h
    · simp only [Option.some.injEq, Prod.mk.injEq] at h
      exact h.2 ▸ hx
    · split at h
      · simp only [Option.some.injEq, Prod.mk.injEq] at h
        exact h.2 ▸ List.mem_cons_of_mem _ hx
      · exact vniChildren_grows g _ (fun hd sn2 b2 s3 hh => ih hd sn2 b2 s3 hh)
          hdr.includes (hdr.fileId :: sn) b s2 h x (List.mem_cons_of_mem _ hx)

theorem vniChildren_isSome (g : DepGraph) (recF : Dep → List Nat → Option (Bool × List Nat))
    (F : Nat)
    (hrecSome : ∀ hd sn, hd ∈ g.deps → unseen g sn < F → (recF hd sn).isSome = true)
    (hrecGrow : ∀ hd sn b s2, recF hd sn = some (b, s2) → ∀ x, x ∈ sn → x ∈ s2) :
    ∀ l sn, unseen g sn < F → (vniChildren g recF l sn).isSome = true := by
  intro l
  induction l with
  | nil => intro sn _; simp [vniChildren]
  | cons i rest ih =>
    intro sn hlt
    simp only [vniChildren]
    split
    · exact ih sn hlt
    · next child hdl =>
      have hmem := depLookup_mem g i child hdl
      have hsome := hrecSome child sn hmem hlt
      split
      · next hr => rw [hr] at hsome; cases hsome
      · simp
      · next s hr =>
        have hgrow := hrecGrow child sn false s hr
        exact ih s (Nat.lt_of_le_of_lt (unseen_le_of_grow g sn s hgrow) hlt)

theorem validateNeedsInclude_isSome (g : DepGraph) (src : Dep) :
    ∀ fuel (hdr : Dep) sn, hdr ∈ g.deps → unseen g sn < fuel →
      (validateNeedsInclude g src fuel hdr sn).isSome = true := by
  intro fuel
  induction fuel with
  | zero => intro hdr sn _ hlt; omega
  | succ fuel ih =>
    intro hdr sn hmem hlt
    simp only [validateNeedsInclude]
    split
    · simp
    · next hc =>
      split
      · simp
      · refine vniChildren_isSome g _ fuel
          (fun hd sn2 hm hl => ih hd sn2 hm hl)
          (fun hd sn2 b2 s3 hh => validateNeedsInclude_grows g src fuel hd sn2 b2 s3 hh)
          hdr.includes (hdr.fileId :: sn) ?_
        have hid : hdr.fileId ∈ idsOf g := List.mem_map_of_mem (fun d => d.fileId) hmem
        have hns : hdr.fileId ∉ sn := by
          intro hmem2
          exact hc (by simp [contains_eq_decide, hmem2])
        have := unseen_cons_lt g hdr.fileId sn hid hns
        omega

theorem validateHasInclude_seen (g : DepGraph) (fuel ref : Nat) (cur : Dep) (sn : List Nat)
    (h : sn.contains ref = true) :
    validateHasInclude g (Nat.succ fuel) ref cur sn = some (cur.includes.contains ref, sn) := by
  simp only [validateHasInclude]
  by_cases hc : cur.includes.contains ref = true
  · have hc2 : ref ∈ cur.includes := by simpa [contains_eq_decide] using hc
    simp [contains_eq_decide, hc2]
  · have hc2 : ref ∉ cur.includes := by simpa [contains_eq_decide] using hc
    have hs2 : ref ∈ sn := by simpa [contains_eq_decide] using h
    simp [contains_eq_decide, hc2, hs2]

theorem vhiChildren_isSome (g : DepGraph) (fuel ref : Nat) (h1 : 1 ≤ fuel) :
    ∀ l sn, sn.contains ref = true →
      (vhiChildren g (fun child s => validateHasInclude g fuel ref child s) l sn).isSome = true := by
  obtain ⟨f, rfl⟩ : ∃ f, fuel = Nat.succ f := ⟨fuel - 1, by omega⟩
  intro l
  induction l with
  | nil => intro sn _; simp [vhiChildren]
  | cons i rest ih =>
    intro sn hcon
    simp only [vhiChildren]
    split
    · exact ih sn hcon
    · next child hdl =>
      have heq := validateHasInclude_seen g f ref child sn hcon
      split
      · next hr => rw [heq] at hr; cases hr
      · simp
      · next s hr =>
        rw [heq] at hr
        simp only [Option.some.injEq, Prod.mk.injEq] at hr
        exact hr.2 ▸ ih sn hcon

theorem validateHasInclude_isSome (g : DepGraph) (fuel ref : Nat) (cur : Dep) (sn : List Nat)
    (h2 : 2 ≤ fuel) :
    (validateHasInclude g fuel ref cur sn).isSome = true := by
  obtain ⟨f, rfl⟩ : ∃ f, fuel = Nat.succ (Nat.succ f) := ⟨fuel - 2, by omega⟩
  simp only [validateHasInclude]
  split
  · simp
  · split
    · simp
    · exact vhiChildren_isSome g (Nat.succ f) ref (by omega) cur.includes (ref :: sn)
        (by simp [contains_eq_decide])

/-! ## Termination of the whole audit -/

theorem unseen_le_len (g : DepGraph) (seen : List Nat) : unseen g seen ≤ g.deps.length := by
  have h1 := List.length_filter_le (fun i => !seen.contains i) (idsOf g)
  have h2 : (idsOf g).length = g.deps.length := List.length_map g.deps (fun d => d.fileId)
  unfold unseen
  omega

theorem unseen_lt_auditFuel (g : DepGraph) (seen : List Nat) :
    unseen g seen < auditFuel g := by
  have := unseen_le_len g seen
  unfold auditFuel
  omega

theorem auditIncludes_isSome (g : DepGraph) (f : Dep) :
    ∀ l, (auditIncludes g f l).isSome = true := by
  intro l
  induction l with
  | nil => simp [auditIncludes]
  | cons i rest ih =>
    simp only [auditIncludes]
    split
    · exact ih
    · next hd hdl =>
      have hs := validateNeedsInclude_isSome g f (auditFuel g) hd []
        (depLookup_mem g i hd hdl) (unseen_lt_auditFuel g [])
      split
      · next hr => rw [hr] at hs; cases hs
      · exact ih
      · simpa using ih

theorem auditRefs_isSome (g : DepGraph) (f : Dep) :
    ∀ l, (auditRefs g f l).isSome = true := by
  intro l
  induction l with
  | nil => simp [auditRefs]
  | cons p rest ih =>
    rcases p with ⟨r, reasons⟩
    simp only [auditRefs]
    split
    · exact ih
    · have hs := validateHasInclude_isSome g (auditFuel g) r f [] (by unfold auditFuel; omega)
      split
      · next hr => rw [hr] at hs; cases hs
      · exact ih
      · simpa using ih

theorem auditDep_isSome (isSystem : String → Bool) (g : DepGraph) (f : Dep) :
    (auditDep isSystem g f).isSome = true := by
  simp only [auditDep]
  split
  · simp
  · have h1 := auditIncludes_isSome g f f.includes
    split
    · next hr => rw [hr] at h1; cases h1
    · have h2 := auditRefs_isSome g f f.references
      split
      · next hr => rw [hr] at h2; cases h2
      · simp

theorem checkIncludes_go_isSome (isSystem : String → Bool) (g : DepGraph) :
    ∀ l, (checkIncludes.go isSystem g l).isSome = true := by
  intro l
  induction l with
  | nil => simp [checkIncludes.go]
  | cons f rest ih =>
    simp only [checkIncludes.go]
    have h1 := auditDep_isSome isSystem g f
    split
    · next hr => rw [hr] at h1; cases h1
    · split
      · next hr => rw [hr] at ih; cases ih
      · simp

/-- C4.  Cycle safety: on every finite dependency graph, including
graphs with self-loop include edges and mutually-including files, both
validation searches return a result with the audit's fuel (the fuel
never runs out, i.e. the C++ recursions terminate), and hence the whole
end-of-walk audit `ClangThread::checkIncludes()` terminates. -/
theorem checkIncludes_terminates (isSystem : String → Bool) (g : DepGraph) :
    (∀ (src hdr : Dep) (seen : List Nat), hdr ∈ g.deps →
        (validateNeedsInclude g src (auditFuel g) hdr seen).isSome = true)
  ∧ (∀ (ref : Nat) (cur : Dep) (seen : List Nat),
        (validateHasInclude g (auditFuel g) ref cur seen).isSome = true)
  ∧ (checkIncludes isSystem g).isSome = true := by
  refine ⟨?_, ?_, ?_⟩
  · intro src hdr seen hmem
    exact validateNeedsInclude_isSome g src (auditFuel g) hdr seen hmem
      (unseen_lt_auditFuel g seen)
  · intro ref cur seen
    exact validateHasInclude_isSome g (auditFuel g) ref cur seen (by unfold auditFuel; omega)
  · exact checkIncludes_go_isSome isSystem g g.deps

/-- A concrete cyclic graph: file 1 includes itself and file 2, and
files 1 and 2 include each other. -/
def gCyc : DepGraph :=
  { deps := [Dep.mk 1 [1, 2] [], Dep.mk 2 [1] []]
  , paths := [(1, "/a.h"), (2, "/b.h")] }

/-- Witness for C4: the termination theorem applied to the concrete
cyclic graph `gCyc`. -/
theorem checkIncludes_terminates_witness :
    (validateNeedsInclude gCyc (Dep.mk 1 [1, 2] []) (auditFuel gCyc)
        (Dep.mk 1 [1, 2] []) []).isSome = true
  ∧ (validateHasInclude gCyc (auditFuel gCyc) 2 (Dep.mk 1 [1, 2] []) []).isSome = true
  ∧ (checkIncludes (fun _ => false) gCyc).isSome = true :=
  ⟨(checkIncludes_terminates (fun _ => false) gCyc).1 (Dep.mk 1 [1, 2] [])
      (Dep.mk 1 [1, 2] []) [] (by decide),
   (checkIncludes_terminates (fun _ => false) gCyc).2.1 2 (Dep.mk 1 [1, 2] []) [],
   (checkIncludes_terminates (fun _ => false) gCyc).2.2⟩

/-! ## Include-audit reflexivity (no false "for no reason" reports) -/

theorem validateNeedsInclude_refHit (g : DepGraph) (src : Dep) (fuel : Nat) (hdr : Dep)
    (h : (refKeys src).contains hdr.fileId = true) :
    validateNeedsInclude g src (Nat.succ fuel) hdr [] = some (true, [hdr.fileId]) := by
  have h2 : hdr.fileId ∈ refKeys src := by simpa [contains_eq_decide] using h
  simp [validateNeedsInclude, contains_eq_decide, h2]

theorem auditIncludes_forNoReason (g : DepGraph) (f : Dep) :
    ∀ l reps a b, auditIncludes g f l = some reps → Report.forNoReason a b ∈ reps →
      a = f.fileId ∧ ∃ i, i ∈ l ∧ ∃ hd, depLookup g i = some hd ∧ hd.fileId = b ∧
        ∃ s2, validateNeedsInclude g f (auditFuel g) hd [] = some (false, s2) := by
  intro l
  induction l with
  | nil =>
    intro reps a b h hmem
    simp only [auditIncludes, Option.some.injEq] at h
    rw [← h] at hmem
    cases hmem
  | cons i rest ih =>
    intro reps a b h hmem
    simp only [auditIncludes] at h
    split at h
    · obtain ⟨ha, j, hj, rest2⟩ := ih reps a b h hmem
      exact ⟨ha, j, List.mem_cons_of_mem _ hj, rest2⟩
    · next hd hdl =>
      split at h
      · cases h
      · obtain ⟨ha, j, hj, rest2⟩ := ih reps a b h hmem
        exact ⟨ha, j, List.mem_cons_of_mem _ hj, rest2⟩
      · next s hr =>
        rcases hmap : auditIncludes g f rest with _ | reps2
        · rw [hmap] at h; cases h
        · rw [hmap] at h
          simp only [Option.map_some', Option.some.injEq] at h
          rw [← h] at hmem
          rcases List.mem_cons.mp hmem with hhead | htail
          · injection hhead with h1 h2
            exact ⟨h1, i, List.mem_cons_self i rest,
              hd, hdl, h2.symm, s, hr⟩
          · obtain ⟨ha, j, hj, rest3⟩ := ih reps2 a b hmap htail
            exact ⟨ha, j, List.mem_cons_of_mem _ hj, rest3⟩

theorem auditRefs_noForNoReason (g : DepGraph) (f : Dep) :
    ∀ l reps a b, auditRefs g f l = some reps → Report.forNoReason a b ∉ reps := by
  intro l
  induction l with
  | nil =>
    intro reps a b h
    simp only [auditRefs, Option.some.injEq] at h
    rw [← h]
    simp
  | cons p rest ih =>
    rcases p with ⟨r, reasons⟩
    intro reps a b h
    simp only [auditRefs] at h
    split at h
    · exact ih reps a b h
    · split at h
      · cases h
      · exact ih reps a b h
      · rcases hmap : auditRefs g f rest with _ | reps2
        · rw [hmap] at h; cases h
        · rw [hmap] at h
          simp only [Option.map_some', Option.some.injEq] at h
          rw [← h]
          intro hmem
          rcases List.mem_cons.mp hmem with hhead | htail
          · cases hhead
          · exact ih reps2 a b hmap htail

theorem auditDep_forNoReason (isSystem : String → Bool) (g : DepGraph) (f : Dep)
    (reps : List Report) (a b : Nat)
    (h : auditDep isSystem g f = some reps) (hmem : Report.forNoReason a b ∈ reps) :
    a = f.fileId ∧ ∃ i, i ∈ f.includes ∧ ∃ hd, depLookup g i = some hd ∧ hd.fileId = b ∧
      ∃ s2, validateNeedsInclude g f (auditFuel g) hd [] = some (false, s2) := by
  simp only [auditDep] at h
  split at h
  · simp only [Option.some.injEq] at h
    rw [← h] at hmem
    cases hmem
  · split at h
    · cases h
    · next la hla =>
      split at h
      · cases h
      · next lb hlb =>
        simp only [Option.some.injEq] at h
        rw [← h] at hmem
        rcases List.mem_append.mp hmem with hA | hB
        · exact auditIncludes_forNoReason g f f.includes la a b hla hA
        · exact absurd hB (auditRefs_noForNoReason g f f.references lb a b hlb)

theorem checkIncludes_go_mem (isSystem : String → Bool) (g : DepGraph) :
    ∀ l reps rep, checkIncludes.go isSystem g l = some reps → rep ∈ reps →
      ∃ D, D ∈ l ∧ ∃ repsD, auditDep isSystem g D = some repsD ∧ rep ∈ repsD := by
  intro l
  induction l with
  | nil =>
    intro reps rep h hmem
    simp only [checkIncludes.go, Option.some.injEq] at h
    rw [← h] at hmem
    cases hmem
  | cons f rest ih =>
    intro reps rep h hmem
    simp only [checkIncludes.go] at h
    split at h
    · cases h
    · next la hla =>
      split at h
      · cases h
      · next lb hlb =>
        simp only [Option.some.injEq] at h
        rw [← h] at hmem
        rcases List.mem_append.mp hmem with hA | hB
        · exact ⟨f, List.mem_cons_self f rest, la, hla, hA⟩
        · obtain ⟨D, hD, repsD, h1, h2⟩ := ih lb rep hlb hB
          exact ⟨D, List.mem_cons_of_mem _ hD, repsD, h1, h2⟩

/-- C3.  Include-audit reflexivity: if an audited file `F` directly
includes `H` and `F` has a recorded reference whose target file id is
`H`, then the audit emits no "`F` includes `H` for no reason" report. -/
theorem checkIncludes_reflexive (isSystem : String → Bool) (g : DepGraph) (F : Dep)
    (hid : Nat) (reps : List Report)
    (hnodup : (idsOf g).Nodup) (hF : F ∈ g.deps) (hinc : hid ∈ F.includes)
    (href : (refKeys F).contains hid = true)
    (hrun : checkIncludes isSystem g = some reps) :
    Report.forNoReason F.fileId hid ∉ reps := by
  intro hmem
  obtain ⟨D, hD, repsD, hDrun, hmemD⟩ :=
    checkIncludes_go_mem isSystem g g.deps reps (Report.forNoReason F.fileId hid) hrun hmem
  obtain ⟨haf, i, hi, hd, hdl, hdfid, s2, hfalse⟩ :=
    auditDep_forNoReason isSystem g D repsD F.fileId hid hDrun hmemD
  have hDF : F = D := List.inj_on_of_nodup_map hnodup hF hD haf
  subst hDF
  have hhit : (refKeys F).contains hd.fileId = true := by rw [hdfid]; exact href
  have htrue := validateNeedsInclude_refHit g F (g.deps.length + 1) hd hhit
  have hfuel : auditFuel g = Nat.succ (g.deps.length + 1) := rfl
  rw [hfuel, htrue] at hfalse
  cases hfalse

/-- Concrete graph for the reflexivity witness: file 0 includes file 1
and also references it. -/
def gRefl : DepGraph :=
  { deps := [Dep.mk 0 [1] [(1, [(Loc.mk 0 3 1, Loc.mk 1 1 1)])], Dep.mk 1 [] []]
  , paths := [(0, "/f.cpp"), (1, "/h.h")] }

set_option maxRecDepth 10000 in
/-- Witness for C3: the reflexivity theorem applied to `gRefl`, whose
audit emits no report at all. -/
theorem checkIncludes_reflexive_witness :
    Report.forNoReason 0 1 ∉ ([] : List Report) :=
  checkIncludes_reflexive (fun _ => false) gRefl
    (Dep.mk 0 [1] [(1, [(Loc.mk 0 3 1, Loc.mk 1 1 1)])]) 1 []
    (by decide) (by decide) (by decide) (by decide) rfl

/-! ## Include-audit reachability: the seen-set of `validateHasInclude`

`validateHasInclude` inserts the *target* id `ref` into the seen set
(`seen.insert(ref)`), not the id of the node being visited, so every
recursive call below the first level finds `ref` already seen and
returns false: the search cannot look past the direct includes of the
direct includes.  A three-edge include chain is therefore reported as
missing even though the reference target is transitively reachable. -/

def gChain : DepGraph :=
  { deps := [ Dep.mk 0 [1] [(3, [(Loc.mk 0 5 1, Loc.mk 3 1 1)])]
            , Dep.mk 1 [2] []
            , Dep.mk 2 [3] []
            , Dep.mk 3 [] [] ]
  , paths := [(0, "/f.cpp"), (1, "/a.h"), (2, "/b.h"), (3, "/r.h")] }

set_option maxRecDepth 10000 in
/-- C1.  Failing input for the reachability claim: in `gChain`, file 0
references file 3 and 3 is transitively reachable from 0 through the
include chain 0 → 1 → 2 → 3, yet the audit still emits the
"0 should include 3" report, because `validateHasInclude` puts the
target id in the seen set and so never descends past depth two. -/
theorem checkIncludes_reports_reachable_reference :
    IncludePath gChain 0 3
  ∧ ∃ reps, checkIncludes (fun _ => false) gChain = some reps
      ∧ Report.shouldInclude 0 3 [(Loc.mk 0 5 1, Loc.mk 3 1 1)] ∈ reps := by
  constructor
  · refine IncludePath.step 0 1 3
      (Dep.mk 0 [1] [(3, [(Loc.mk 0 5 1, Loc.mk 3 1 1)])]) rfl (by decide) ?_
    refine IncludePath.step 1 2 3 (Dep.mk 1 [2] []) rfl (by decide) ?_
    exact IncludePath.direct 2 3 (Dep.mk 2 [3] []) rfl (by decide)
  · refine ⟨_, rfl, ?_⟩
    decide

/-! ## The query facade, `Daemon.cpp`

Path resolution (`Path::resolve`, `Path::isResolved`, `Path::isFile`)
touches the filesystem and lives outside this repository, so it is
abstracted into an `Env` of capabilities.  `Path::resolve` mutates the
path on success and returns a bool; here it returns `some resolvedPath`
on success and `none` on failure (path left unchanged). -/

structure Env where
  resolve : String → Option String
  isResolved : String → Bool
  isFile : String → Bool

namespace Daemon

/-- `Daemon::addSourceFile` from `Daemon.cpp`.  The result is the
`result` string of the reply map together with the list of
`ParseThread::addFile` calls made, each carrying the path and the
(empty, `GccArguments()`) argument list. -/
def addSourceFile (env : Env) (fileArg : Option String) : String × List (String × List String) :=
  let file := fileArg.getD ""
  if file = "" then ("No file to add (use --file=<file>)", [])
  else
    match env.resolve file with
    | none => (file ++ " Doesn't exist", [])
    | some p => ("File added", [(p, [])])

/-- C7.  `add` rejects an empty or unresolvable path synchronously with
an error string and enqueues nothing; on successful resolution it
enqueues exactly one parse job with empty compiler arguments for the
resolved path. -/
theorem addSourceFile_spec (env : Env) (fileArg : Option String) :
    (fileArg.getD "" = "" →
      addSourceFile env fileArg = ("No file to add (use --file=<file>)", []))
  ∧ (fileArg.getD "" ≠ "" → env.resolve (fileArg.getD "") = none →
      addSourceFile env fileArg = (fileArg.getD "" ++ " Doesn't exist", []))
  ∧ (∀ p, fileArg.getD "" ≠ "" → env.resolve (fileArg.getD "") = some p →
      addSourceFile env fileArg = ("File added", [(p, [])])) := by
  refine ⟨?_, ?_, ?_⟩
  · intro h
    simp [addSourceFile, h]
  · intro h hr
    simp [addSourceFile, h, hr]
  · intro p h hr
    simp [addSourceFile, h, hr]

/-- A concrete environment: only "/src/x.cpp" resolves. -/
def envW : Env :=
  { resolve := fun s => if s = "/src/x.cpp" then some "/abs/src/x.cpp" else none
  , isResolved := fun _ => false
  , isFile := fun s => s = "/abs/src/x.cpp" }

/-- Witness for C7: all three branches of `addSourceFile_spec` at
concrete inputs. -/
theorem addSourceFile_spec_witness :
    addSourceFile envW none = ("No file to add (use --file=<file>)", [])
  ∧ addSourceFile envW (some "/missing") = ("/missing Doesn't exist", [])
  ∧ addSourceFile envW (some "/src/x.cpp") = ("File added", [("/abs/src/x.cpp", [])]) :=
  ⟨(addSourceFile_spec envW none).1 rfl,
   (addSourceFile_spec envW (some "/missing")).2.1 (by decide) rfl,
   (addSourceFile_spec envW (some "/src/x.cpp")).2.2 "/abs/src/x.cpp" (by decide) rfl⟩

end Daemon

namespace Daemon

def listIsInfix (sub : List Char) : List Char → Bool
  | [] => sub.isEmpty
  | c :: t => sub.isPrefixOf (c :: t) || listIsInfix sub t

/-- `QByteArray::contains` as used on paths: substring test. -/
def strContains (s sub : String) : Bool :=
  listIsInfix sub.data s.data

/-- `joined` from `Daemon.cpp`: join with a newline, chopping the final
separator. -/
def joined (l : List String) : String :=
  String.intercalate "\n" l

/-- The `while` loop of `Daemon::removeSourceFile` over the translation
unit cache (key, TU-handle) entries, with `0` the null handle.  On a
match the source disposes the TU, erases the slot, and only then appends
`it.key()` — which is now the key of the *next* slot (undefined
behaviour when the erased slot was the last one; modelled as appending
nothing).  Returns (remaining cache, `removed` list, disposed TUs). -/
def removeLoop (p : String → Bool) :
    List (String × Nat) → List (String × Nat) × List String × List Nat
  | [] => ([], [], [])
  | (k, v) :: rest =>
    if p k then
      let r := removeLoop p rest
      (r.1, (match rest with | (k2, _) :: _ => k2 :: r.2.1 | [] => r.2.1), v :: r.2.2)
    else
      let r := removeLoop p rest
      ((k, v) :: r.1, r.2.1, r.2.2)

/-- `Daemon::removeSourceFile`.  Regular-expression matching
(`QRegExp`) is external, so validity and matching are parameters; with
`hasRegexpFlag = false` the substring path of the source is taken.
Returns the `result` string, the new cache, and the disposed TUs. -/
def removeSourceFile (rxValid : String → Bool) (rxMatch : String → String → Bool)
    (hasRegexpFlag : Bool) (cache : List (String × Nat)) (freeArgs : List String) :
    String × List (String × Nat) × List Nat :=
  if freeArgs.length != 1 || freeArgs.headD "" = "" then
    ("Invalid arguments. I need exactly one free arg", cache, [])
  else
    let pat := freeArgs.headD ""
    if hasRegexpFlag && (!rxValid pat || pat = "") then
      ("Invalid arguments. Bad regexp", cache, [])
    else
      let p := fun k => if hasRegexpFlag then rxMatch pat k else strContains k pat
      let r := removeLoop p cache
      if r.2.1 = [] then ("No matches for " ++ pat, r.1, r.2.2)
      else ("Removed " ++ joined r.2.1, r.1, r.2.2)

/-- C2.  Failing input for the remove claim: with cached entries
"/a.cpp" (TU 1) and "/b.cpp" (TU 2) and substring pattern "a.cpp", the
entry "/a.cpp" is erased and its TU 1 disposed, but the returned string
is "Removed /b.cpp" — the key read from the slot *after* the erased
one — instead of listing the removed path "/a.cpp". -/
theorem removeSourceFile_reports_wrong_key :
    removeSourceFile (fun _ => true) (fun _ _ => false) false
      [("/a.cpp", 1), ("/b.cpp", 2)] ["a.cpp"]
      = ("Removed /b.cpp", [("/b.cpp", 2)], [1]) := by
  decide

end Daemon

namespace Daemon

/-- `QHash::value`-style lookup in the TU cache; `0` is the null
translation unit. -/
def cacheFind (cache : List (String × Nat)) (k : String) : Option Nat :=
  (cache.find? (fun p => p.1 == k)).map (fun p => p.2)

/-- `QHash::erase` of the slot holding `k`. -/
def cacheErase (cache : List (String × Nat)) (k : String) : List (String × Nat) :=
  cache.eraseP (fun p => p.1 == k)

/-- The resolve idiom of `Daemon::load`: resolve only when not already
resolved (`if (!filename.isResolved()) filename.resolve();`); a failed
resolve leaves the path unchanged. -/
def resolveDance (env : Env) (f : String) : String :=
  if env.isResolved f then f else (env.resolve f).getD f

/-- `Daemon::load`: returns the `result` string, the new TU cache, the
disposed TU handles, and the paths handed to
`ParseThread::loadTranslationUnit`. -/
def load (env : Env) (cache : List (String × Nat)) (freeArgs : List String) :
    String × List (String × Nat) × List Nat × List String :=
  let filename := resolveDance env (freeArgs.headD "")
  if !env.isFile filename then ("No filename specified", cache, [], [])
  else
    match cacheFind cache filename with
    | some tu =>
      if tu = 0 then ("File already loading " ++ filename, cache, [], [])
      else ("Loading", cacheErase cache filename ++ [(filename, 0)], [tu],
        [filename])
    | none => ("Loading", cache ++ [(filename, 0)], [], [filename])

/-- C10.  `load` on a path whose cache entry is the null sentinel
returns "File already loading <path>" leaving the cache unchanged and
starting no load; otherwise any existing handle is disposed, the entry
is set to the null sentinel and a background load is started. -/
theorem load_spec (env : Env) (cache : List (String × Nat)) (freeArgs : List String) :
    (env.isFile (resolveDance env (freeArgs.headD "")) = true →
        cacheFind cache (resolveDance env (freeArgs.headD "")) = some 0 →
        load env cache freeArgs
          = ("File already loading " ++ resolveDance env (freeArgs.headD ""), cache, [], []))
  ∧ (∀ tu, env.isFile (resolveDance env (freeArgs.headD "")) = true →
        cacheFind cache (resolveDance env (freeArgs.headD "")) = some tu → tu ≠ 0 →
        load env cache freeArgs
          = ("Loading",
             cacheErase cache (resolveDance env (freeArgs.headD ""))
               ++ [(resolveDance env (freeArgs.headD ""), 0)],
             [tu], [resolveDance env (freeArgs.headD "")]))
  ∧ (env.isFile (resolveDance env (freeArgs.headD "")) = true →
        cacheFind cache (resolveDance env (freeArgs.headD "")) = none →
        load env cache freeArgs
          = ("Loading", cache ++ [(resolveDance env (freeArgs.headD ""), 0)], [],
             [resolveDance env (freeArgs.headD "")])) := by
  refine ⟨?_, ?_, ?_⟩
  · intro hfile hfind
    simp only [List.headD_eq_head?_getD] at hfile hfind
    simp [load, hfile, hfind]
  · intro tu hfile hfind htu
    simp only [List.headD_eq_head?_getD] at hfile hfind
    simp [load, hfile, hfind, htu]
  · intro hfile hfind
    simp only [List.headD_eq_head?_getD] at hfile hfind
    simp [load, hfile, hfind]

/-- Environment for the load witness: every path is already resolved
and is a file. -/
def envL : Env :=
  { resolve := fun _ => none
  , isResolved := fun _ => true
  , isFile := fun _ => true }

/-- Witness for C10: the three branches of `load_spec` on the cache
holding a null sentinel for "/a.cpp" and a live TU 7 for "/b.cpp". -/
theorem load_spec_witness :
    load envL [("/a.cpp", 0), ("/b.cpp", 7)] ["/a.cpp"]
      = ("File already loading /a.cpp", [("/a.cpp", 0), ("/b.cpp", 7)], [], [])
  ∧ load envL [("/a.cpp", 0), ("/b.cpp", 7)] ["/b.cpp"]
      = ("Loading", [("/a.cpp", 0), ("/b.cpp", 0)], [7], ["/b.cpp"])
  ∧ load envL [("/a.cpp", 0), ("/b.cpp", 7)] ["/c.cpp"]
      = ("Loading", [("/a.cpp", 0), ("/b.cpp", 7), ("/c.cpp", 0)], [], ["/c.cpp"]) :=
  ⟨(load_spec envL [("/a.cpp", 0), ("/b.cpp", 7)] ["/a.cpp"]).1 rfl rfl,
   by
    have h := (load_spec envL [("/a.cpp", 0), ("/b.cpp", 7)] ["/b.cpp"]).2.1 7 rfl rfl
      (by decide)
    simpa [cacheErase, resolveDance, envL] using h,
   (load_spec envL [("/a.cpp", 0), ("/b.cpp", 7)] ["/c.cpp"]).2.2 rfl rfl⟩

end Daemon

namespace Node

/-- Modelled from the spec: `Node.h` is not part of the sources, and
section 3 of the spec lists the `SymbolNode` kinds "encoded as distinct
bits so a kind-mask query is a bitwise test", in the order Root,
MethodDeclaration, MethodDefinition, Class, Struct, Namespace,
VariableDeclaration, EnumDeclaration, EnumValue, Reference.  The bits
follow that order; `All` is the union of all kinds. -/
def Root : Nat := 1

def MethodDeclaration : Nat := 2

def MethodDefinition : Nat := 4

def Class : Nat := 8

def Struct : Nat := 16

def Namespace : Nat := 32

def VariableDeclaration : Nat := 64

def EnumDeclaration : Nat := 128

def EnumValue : Nat := 256

def Reference : Nat := 512

def All : Nat := 1023

/-- Modelled from the spec: `Node::typeToName` for the kinds that
`stringToType` iterates over (`Node::MethodDeclaration` up to
`Node::EnumValue`, doubling the bit each step), paired with their
names. -/
def kindTable : List (Nat × String) :=
  [ (MethodDeclaration, "MethodDeclaration")
  , (MethodDefinition, "MethodDefinition")
  , (Class, "Class")
  , (Struct, "Struct")
  , (Namespace, "Namespace")
  , (VariableDeclaration, "VariableDeclaration")
  , (EnumDeclaration, "EnumDeclaration")
  , (EnumValue, "EnumValue") ]

end Node

namespace Daemon

/-- `QByteArray::split(',')`: split at every separator, keeping empty
parts. -/
def splitCharList (sep : Char) : List Char → List (List Char)
  | [] => [[]]
  | c :: rest =>
    match splitCharList sep rest with
    | [] => [[]]
    | h :: t => if c = sep then [] :: h :: t else (c :: h) :: t

def splitComma (s : String) : List String :=
  (splitCharList (Char.ofNat 44) s.data).map (fun cs => String.mk cs)

/-- Lower-case an ASCII code, for the `strcasecmp` comparison. -/
def lowerCode (n : Nat) : Nat :=
  if 65 <= n && n <= 90 then n + 32 else n

/-- `strcasecmp(a, b) == 0`. -/
def strCaseEq (a b : String) : Bool :=
  a.data.map (fun c => lowerCode c.toNat) == b.data.map (fun c => lowerCode c.toNat)

/-- `stringToType` from `Daemon.cpp`: scan the kind bits from
`Node::MethodDeclaration` to `Node::EnumValue`, comparing the kind name
case-insensitively (`strcasecmp`); `0` is `Node::None`. -/
def stringToType (s : String) : Nat :=
  match Node.kindTable.find? (fun kv => strCaseEq kv.2 s) with
  | some kv => kv.1
  | none => 0

/-- Outcome of `Daemon::lookup`: either an error reply or a call to
`VisitThread::lookup` with the accumulated kind mask and flags. -/
inductive LookupOutcome where
  | err (msg : String)
  | run (mask : Nat) (regexp : Bool) (patterns : List String)
  deriving DecidableEq

/-- The `foreach` over `args.value("types").toByteArray().split(',')`
in `Daemon::lookup`: empty entries are skipped, the first unparsable
entry aborts with an error, parsed entries are OR-ed into the mask. -/
def parseTypes : List String → Nat → Except String Nat
  | [], acc => Except.ok acc
  | t :: rest, acc =>
    if t = "" then parseTypes rest acc
    else
      let k := stringToType t
      if k = 0 then Except.error ("Can't parse type " ++ t)
      else parseTypes rest (acc ||| k)

/-- `Daemon::lookup` up to the `VisitThread::lookup` call: parse the
`types` mask (defaulting to all kinds except Root), set the RegExp flag,
and run the visit. -/
def lookup (typesArg : Option String) (hasRegexpArg : Bool) (freeArgs : List String) :
    LookupOutcome :=
  match parseTypes (splitComma (typesArg.getD "")) 0 with
  | Except.error e => LookupOutcome.err e
  | Except.ok m =>
    let mask := if m = 0 then Node.All &&& (2 ^ 32 - 1 - Node.Root) else m
    LookupOutcome.run mask hasRegexpArg freeArgs

theorem parseTypes_all_empty : ∀ l, (∀ e, e ∈ l → e = "") → parseTypes l 0 = Except.ok 0 := by
  intro l
  induction l with
  | nil => intro _; rfl
  | cons t rest ih =>
    intro h
    have ht : t = "" := h t (List.mem_cons_self t rest)
    simp only [parseTypes, if_pos ht]
    exact ih (fun e he => h e (List.mem_cons_of_mem _ he))

theorem parseTypes_bad_entry : ∀ (l : List String) (acc : Nat),
    (∃ e, e ∈ l ∧ e ≠ "" ∧ stringToType e = 0) →
    ∃ e, e ∈ l ∧ e ≠ "" ∧ parseTypes l acc = Except.error ("Can't parse type " ++ e) := by
  intro l
  induction l with
  | nil =>
    intro acc h
    obtain ⟨e, he, _⟩ := h
    cases he
  | cons t rest ih =>
    intro acc h
    by_cases ht : t = ""
    · simp only [parseTypes, if_pos ht]
      obtain ⟨e, he, hne, hk⟩ := h
      rcases List.mem_cons.mp he with rfl | hrest
      · exact absurd ht hne
      · obtain ⟨e2, he2, hne2, heq⟩ := ih acc ⟨e, hrest, hne, hk⟩
        exact ⟨e2, List.mem_cons_of_mem _ he2, hne2, heq⟩
    · by_cases hk0 : stringToType t = 0
      · refine ⟨t, List.mem_cons_self t rest, ht, ?_⟩
        simp [parseTypes, ht, hk0]
      · simp only [parseTypes, if_neg ht, if_neg hk0]
        obtain ⟨e, he, hne, hk⟩ := h
        rcases List.mem_cons.mp he with rfl | hrest
        · exact absurd hk hk0
        · obtain ⟨e2, he2, hne2, heq⟩ := ih (acc ||| stringToType t) ⟨e, hrest, hne, hk⟩
          exact ⟨e2, List.mem_cons_of_mem _ he2, hne2, heq⟩

/-- C8.  With `types` absent or holding only empty entries the kind
mask passed to the lookup is all kinds except Root
(`Node::All & ~Node::Root`); any unparsable entry yields the
"Can't parse type" error and no lookup is run. -/
theorem lookup_types_spec (typesArg : Option String) (hasRegexpArg : Bool)
    (freeArgs : List String) :
    ((∀ e, e ∈ splitComma (typesArg.getD "") → e = "") →
        lookup typesArg hasRegexpArg freeArgs
          = LookupOutcome.run (Node.All &&& (2 ^ 32 - 1 - Node.Root)) hasRegexpArg freeArgs)
  ∧ ((∃ e, e ∈ splitComma (typesArg.getD "") ∧ e ≠ "" ∧ stringToType e = 0) →
        ∃ e, e ∈ splitComma (typesArg.getD "") ∧ e ≠ "" ∧
          lookup typesArg hasRegexpArg freeArgs
            = LookupOutcome.err ("Can't parse type " ++ e)) := by
  constructor
  · intro hall
    simp [lookup, parseTypes_all_empty _ hall]
  · intro hex
    obtain ⟨e, he, hne, heq⟩ := parseTypes_bad_entry (splitComma (typesArg.getD "")) 0 hex
    refine ⟨e, he, hne, ?_⟩
    simp [lookup, heq]

/-- Witness for C8: `types` absent yields the default mask 1022; the
entry list "class,bogus" fails on "bogus". -/
theorem lookup_types_spec_witness :
    lookup none false ["foo"] = LookupOutcome.run 1022 false ["foo"]
  ∧ (∃ e, e ∈ splitComma ((some "class,bogus" : Option String).getD "") ∧ e ≠ "" ∧
      lookup (some "class,bogus") true [] = LookupOutcome.err ("Can't parse type " ++ e)) := by
  constructor
  · have h := (lookup_types_spec none false ["foo"]).1 (by decide)
    simpa using h
  · exact (lookup_types_spec (some "class,bogus") true []).2 ⟨"bogus", by decide, by decide, by decide⟩

/-- The dashed arguments of `lookupline`: `none` models a missing key
(`args.contains(...)` false); `QVariant::toInt` values are `Int`. -/
structure LLArgs where
  file : Option String
  line : Option Int
  column : Option Int

/-- The front-end capabilities `Daemon::lookupLine` uses, abstracted
over the parsing library: `cursorAt` is
`clang_getFile`/`clang_getLocation`/`clang_getCursor` composed,
`locFile`/`locLine`/`locCol` are
`clang_getInstantiationLocation`/`clang_getFileName` of a cursor's
location.  Cursors and translation units are handles (`Nat`). -/
structure LLFrontend where
  cursorAt : Nat → String → Int → Int → Nat
  isValidCursor : Nat → Bool
  isCXXMethod : Nat → Bool
  canonical : Nat → Nat
  referenced : Nat → Nat
  locFile : Nat → String
  locLine : Nat → Nat
  locCol : Nat → Nat

/-- The resolve idiom of `Daemon::lookupLine` — note the inverted
condition in the source (`if (file.isResolved()) file.resolve();`):
resolve is attempted only when the path is already resolved. -/
def lookupLineResolve (env : Env) (f : String) : String :=
  if env.isResolved f then (env.resolve f).getD f else f

/-- `Daemon::lookupLine`.  The final reply is produced by
`snprintf(ret, 63, "Symbol (decl) at %s, line %u column %u", ...)` into
a 64-byte buffer, so the message is truncated to its first 62
characters. -/
def lookupLine (env : Env) (fe : LLFrontend) (cache : List (String × Nat))
    (args : LLArgs) : String :=
  match args.file, args.line, args.column with
  | some f0, some line, some column =>
    let file := lookupLineResolve env f0
    if !env.isFile file || line = 0 || column = 0 then "Invalid argument type"
    else if (cacheFind cache file).getD 0 = 0 then "Translation unit not found"
    else
      let unit := (cacheFind cache file).getD 0
      let cursor := fe.cursorAt unit file line column
      if !fe.isValidCursor cursor then "Unable to get cursor for location"
      else
        let res := if fe.isCXXMethod cursor then fe.canonical cursor
                   else fe.referenced cursor
        if !fe.isValidCursor res then "No referenced cursor"
        else
          ("Symbol (decl) at " ++ fe.locFile res ++ ", line "
            ++ toString (fe.locLine res) ++ " column "
            ++ toString (fe.locCol res)).take 62
  | _, _, _ => "Invalid argument count"

/-- A front end in which the cursor at the requested position (handle
1) is valid but the cursor it references (handle 2) is not. -/
def feBad : LLFrontend :=
  { cursorAt := fun _ _ _ _ => 1
  , isValidCursor := fun c => c == 1
  , isCXXMethod := fun _ => false
  , canonical := fun c => c
  , referenced := fun _ => 2
  , locFile := fun _ => "/decl.h"
  , locLine := fun _ => 4
  , locCol := fun _ => 2 }

set_option maxRecDepth 10000 in
/-- C5 counterexample: a `lookupline` command with a cached translation
unit (handle 5) and a valid cursor at the requested position, whose
referenced cursor is invalid: the reply is "No referenced cursor", not
a string of the form "Symbol (decl) at <path>, line L column C". -/
theorem lookupLine_unresolved_referenced :
    (cacheFind [("/a.cpp", 5)] "/a.cpp").getD 0 ≠ 0
  ∧ feBad.isValidCursor (feBad.cursorAt 5 "/a.cpp" 1 5) = true
  ∧ lookupLine envL feBad [("/a.cpp", 5)] (LLArgs.mk (some "/a.cpp") (some 1) (some 5))
      = "No referenced cursor"
  ∧ ("Symbol (decl) at ".data.isPrefixOf ("No referenced cursor").data) = false := by
  refine ⟨by decide, by decide, by decide, by decide⟩

/-- C5 amended.  When additionally the resolved cursor (canonical for a
C++ method, referenced otherwise) is valid, the reply is the message
"Symbol (decl) at <path>, line L column C" for that cursor's location,
truncated by the fixed 64-byte buffer to its first 62 characters. -/
theorem lookupLine_resolved_format (env : Env) (fe : LLFrontend)
    (cache : List (String × Nat)) (f0 : String) (line column : Int) :
    let file := lookupLineResolve env f0
    let unit := (cacheFind cache file).getD 0
    let cursor := fe.cursorAt unit file line column
    let res := if fe.isCXXMethod cursor then fe.canonical cursor
               else fe.referenced cursor
    env.isFile file = true → line ≠ 0 → column ≠ 0 → unit ≠ 0 →
    fe.isValidCursor cursor = true → fe.isValidCursor res = true →
    lookupLine env fe cache (LLArgs.mk (some f0) (some line) (some column))
      = ("Symbol (decl) at " ++ fe.locFile res ++ ", line "
          ++ toString (fe.locLine res) ++ " column "
          ++ toString (fe.locCol res)).take 62 := by
  intro file unit cursor res hfile hline hcol htu hcur hres
  simp only [lookupLine, hfile, hline, hcol, Bool.not_true, hcur, hres]
  simp [htu]

/-- A front end in which the cursor at the position (handle 1) refers
to a valid declaration cursor (handle 3) at /decl.h line 4 column 2. -/
def feGood : LLFrontend :=
  { cursorAt := fun _ _ _ _ => 1
  , isValidCursor := fun c => c == 1 || c == 3
  , isCXXMethod := fun _ => false
  , canonical := fun c => c
  , referenced := fun _ => 3
  , locFile := fun _ => "/decl.h"
  , locLine := fun _ => 4
  , locCol := fun _ => 2 }

set_option maxRecDepth 10000 in
/-- Witness for the amended C5: the full reply for a concrete front
end and cache. -/
theorem lookupLine_resolved_format_witness :
    lookupLine envL feGood [("/a.cpp", 5)] (LLArgs.mk (some "/a.cpp") (some 1) (some 5))
      = "Symbol (decl) at /decl.h, line 4 column 2" := by
  have h := lookupLine_resolved_format envL feGood [("/a.cpp", 5)] "/a.cpp" 1 5
    (by decide) (by decide) (by decide) (by decide) (by decide) (by decide)
  rw [h]
  decide

end Daemon

/-! ## `ClangThread::addCursor` (`src/ClangThread.cpp`)

The cursor graph handed out by the front end is abstracted into
`AstFE`: each accessor mirrors one `clang_get...` call, cursors are
handles (`Nat`, with 0 the null cursor), and `locOf` is
`createLocation` (`none` = null location).  The visitor state is an
arena of `Cursor` records plus the `mCursorsByUsr` hash; the C++ raw
pointers become arena indices.  The unbounded C++ recursion takes a
fuel parameter. -/

namespace ClangThread

structure CRecord where
  usr : String := ""
  location : Loc := Loc.mk 0 0 0
  rangeStart : Option Loc := none
  rangeEnd : Option Loc := none
  kind : String := ""
  linkage : String := ""
  spelling : String := ""
  displayName : String := ""
  mangledName : String := ""
  templateKind : String := ""
  referenced : Option Nat := none
  lexicalParent : Option Nat := none
  semanticParent : Option Nat := none
  canonical : Option Nat := none
  definition : Option Nat := none
  specializedCursorTemplate : Option Nat := none
  overridden : List Nat := []
  isDefinitionFlag : Bool := false
  ctype : Option Nat := none
  deriving DecidableEq

structure AstFE where
  locOf : Nat → Option Loc
  usrOf : Nat → String
  rangeOf : Nat → Option (Option Loc × Option Loc)
  referencedOf : Nat → Nat
  lexicalParentOf : Nat → Nat
  semanticParentOf : Nat → Nat
  canonicalOf : Nat → Nat
  definitionOf : Nat → Nat
  specializedTemplateOf : Nat → Nat
  overriddenOf : Nat → List Nat
  isDefinitionOf : Nat → Bool
  kindSpellingOf : Nat → String
  linkageOf : Nat → String
  spellingOf : Nat → String
  displayNameOf : Nat → String
  manglingOf : Nat → String
  templateKindOf : Nat → Option String
  typeOf : Nat → Nat

structure AState where
  records : List CRecord := []
  byUsr : List (String × Nat) := []
  deriving DecidableEq

/-- `mCursorsByUsr.value(usr)`. -/
def lookupUsr (s : AState) (u : String) : Option Nat :=
  (s.byUsr.find? (fun p => p.1 == u)).map (fun p => p.2)

def getRec (s : AState) (i : Nat) : CRecord :=
  (s.records.get? i).getD {}

/-- A field assignment `c->field = v` on the record at index `i`. -/
def setRec (s : AState) (i : Nat) (f : CRecord → CRecord) : AState :=
  { s with records := s.records.set i (f (getRec s i)) }

/-- `mCursorsByUsr[usr] = c.get()`: hash assignment, overwriting an
existing slot. -/
def setUsr (s : AState) (u : String) (rid : Nat) : AState :=
  { s with byUsr :=
      if (s.byUsr.find? (fun p => p.1 == u)).isSome
      then s.byUsr.map (fun p => if p.1 == u then (u, rid) else p)
      else s.byUsr ++ [(u, rid)] }

/-- `ClangThread::addType` returns null unconditionally. -/
def addType (_ty : Nat) : Option Nat :=
  none

/-- `if (!usr.isEmpty()) mCursorsByUsr[c->usr] = c.get();` -/
def registerStep (usr : String) (rid : Nat) (s : AState) : AState :=
  if usr = "" then s else setUsr s usr rid

/-- The `clang_getCursorExtent` / `clang_Range_isNull` block. -/
def rangeStep (fe : AstFE) (cu rid : Nat) (s : AState) : AState :=
  match fe.rangeOf cu with
  | none => s
  | some rse => setRec s rid (fun c => { c with rangeStart := rse.1, rangeEnd := rse.2 })

/-- `if (!clang_equalCursors(ref, nullCursor)) c->referenced = addCursor(ref);` -/
def referencedStep (recC : AState → Nat → Option Nat × AState) (fe : AstFE)
    (cu rid : Nat) (s : AState) : AState :=
  if fe.referencedOf cu != 0 then
    let pr := recC s (fe.referencedOf cu)
    setRec pr.2 rid (fun c => { c with referenced := pr.1 })
  else s

/-- The five string-field assignments (kind, linkage, spelling,
displayName, mangledName). -/
def stringsStep (fe : AstFE) (cu rid : Nat) (s : AState) : AState :=
  setRec s rid (fun c => { c with
    kind := fe.kindSpellingOf cu
    linkage := fe.linkageOf cu
    spelling := fe.spellingOf cu
    displayName := fe.displayNameOf cu
    mangledName := fe.manglingOf cu })

/-- `if (templateKind != CXCursor_NoDeclFound) c->templateKind = ...` -/
def templateStep (fe : AstFE) (cu rid : Nat) (s : AState) : AState :=
  match fe.templateKindOf cu with
  | some tk => setRec s rid (fun c => { c with templateKind := tk })
  | none => s

/-- The `clang_getOverriddenCursors` loop: only non-null `addCursor`
results are appended. -/
def overriddenStep (recC : AState → Nat → Option Nat × AState) (rid : Nat)
    (s : AState) (os : List Nat) : AState :=
  os.foldl (fun st o =>
    let pr := recC st o
    match pr.1 with
    | some orid => setRec pr.2 rid (fun c => { c with overridden := c.overridden ++ [orid] })
    | none => pr.2) s

/-- `c->canonical = addCursor(clang_getCanonicalCursor(cursor));` -/
def canonStep (recC : AState → Nat → Option Nat × AState) (fe : AstFE)
    (cu rid : Nat) (s : AState) : AState :=
  setRec (recC s (fe.canonicalOf cu)).2 rid
    (fun c => { c with canonical := (recC s (fe.canonicalOf cu)).1 })

/-- `if (clang_isCursorDefinition(cursor)) flags |= Definition; else
c->definition = addCursor(clang_getCursorDefinition(cursor));` -/
def defStep (recC : AState → Nat → Option Nat × AState) (fe : AstFE)
    (cu rid : Nat) (s : AState) : AState :=
  if fe.isDefinitionOf cu then
    setRec s rid (fun c => { c with isDefinitionFlag := true })
  else
    setRec (recC s (fe.definitionOf cu)).2 rid
      (fun c => { c with definition := (recC s (fe.definitionOf cu)).1 })

/-- `c->specializedCursorTemplate = addCursor(clang_getSpecializedCursorTemplate(cursor));` -/
def spzStep (recC : AState → Nat → Option Nat × AState) (fe : AstFE)
    (cu rid : Nat) (s : AState) : AState :=
  setRec (recC s (fe.specializedTemplateOf cu)).2 rid
    (fun c => { c with specializedCursorTemplate := (recC s (fe.specializedTemplateOf cu)).1 })

/-- `c->type = addType(clang_getCursorType(cursor));` -/
def typeStep (fe : AstFE) (cu rid : Nat) (s : AState) : AState :=
  setRec s rid (fun c => { c with ctype := addType (fe.typeOf cu) })

/-- The assignments of `ClangThread::addCursor` after the second write
to `lexicalParent`: canonical, definition (or the Definition flag),
specializedCursorTemplate, the overridden loop, and `addType`. -/
def addCursorTail (recC : AState → Nat → Option Nat × AState) (fe : AstFE)
    (cu rid : Nat) (s : AState) : AState :=
  typeStep fe cu rid
    (overriddenStep recC rid
      (spzStep recC fe cu rid
        (defStep recC fe cu rid
          (canonStep recC fe cu rid s)))
      (fe.overriddenOf cu))

/-- `std::shared_ptr<Cursor> c(new Cursor); c->usr = usr;
c->location = location;` — allocation of the new record (the arena
index plays the role of the heap pointer). -/
def allocStep (s : AState) (loc : Loc) (usr : String) : AState :=
  { s with records := s.records ++ [{ usr := usr, location := loc }] }

/-- First write: `c->lexicalParent = addCursor(clang_getCursorLexicalParent(cursor));` -/
def lexStep1 (recC : AState → Nat → Option Nat × AState) (fe : AstFE)
    (cu rid : Nat) (s : AState) : AState :=
  setRec (recC s (fe.lexicalParentOf cu)).2 rid
    (fun c => { c with lexicalParent := (recC s (fe.lexicalParentOf cu)).1 })

/-- `c->semanticParent = addCursor(clang_getCursorSemanticParent(cursor));` -/
def semStep (recC : AState → Nat → Option Nat × AState) (fe : AstFE)
    (cu rid : Nat) (s : AState) : AState :=
  setRec (recC s (fe.semanticParentOf cu)).2 rid
    (fun c => { c with semanticParent := (recC s (fe.semanticParentOf cu)).1 })

/-- Second write to the same field:
`c->lexicalParent = addCursor(clang_getCursorSemanticParent(cursor));` -/
def lexStep2 (recC : AState → Nat → Option Nat × AState) (fe : AstFE)
    (cu rid : Nat) (s : AState) : AState :=
  setRec (recC s (fe.semanticParentOf cu)).2 rid
    (fun c => { c with lexicalParent := (recC s (fe.semanticParentOf cu)).1 })

/-- The assignments of `ClangThread::addCursor` from allocation up to
(and including) the `templateKind` write, i.e. everything before the
three parent-field writes. -/
def preSteps (recC : AState → Nat → Option Nat × AState) (fe : AstFE)
    (s : AState) (cu : Nat) (loc : Loc) (usr : String) : AState :=
  templateStep fe cu s.records.length
    (stringsStep fe cu s.records.length
      (registerStep usr s.records.length
        (referencedStep recC fe cu s.records.length
          (rangeStep fe cu s.records.length
            (allocStep s loc usr)))))

/-- The record-creating path of `ClangThread::addCursor` (everything
after the early returns), abstracted over the recursive call `recC`,
with the assignments in source order: after `preSteps`,
`c->lexicalParent` is written from the lexical parent, then
`c->semanticParent` from the semantic parent, then `c->lexicalParent`
is written a second time from the semantic parent, then the tail. -/
def addCursorNew (recC : AState → Nat → Option Nat × AState) (fe : AstFE)
    (s : AState) (cu : Nat) (loc : Loc) (usr : String) : AState :=
  addCursorTail recC fe cu s.records.length
    (lexStep2 recC fe cu s.records.length
      (semStep recC fe cu s.records.length
        (lexStep1 recC fe cu s.records.length
          (preSteps recC fe s cu loc usr))))

/-- `ClangThread::addCursor(cursor, location)`: a null effective
location returns null; a non-empty, already-registered USR returns the
registered record without touching the state; otherwise a record is
created and null is returned (`return 0;` at the end of the C++
function). -/
def addCursor (fe : AstFE) : Nat → AState → Option Loc → Nat → Option Nat × AState
  | 0, s, _, _ => (none, s)
  | Nat.succ fuel, s, locParam, cu =>
    match (match locParam with | some l => some l | none => fe.locOf cu) with
    | none => (none, s)
    | some loc =>
      let usr := fe.usrOf cu
      match (if usr = "" then none else lookupUsr s usr) with
      | some rid => (some rid, s)
      | none => (none, addCursorNew (fun st c => addCursor fe fuel st none c) fe s cu loc usr)

end ClangThread

namespace ClangThread

theorem addCursor_cases (fe : AstFE) (fuel : Nat) (s : AState) (locParam : Option Loc)
    (cu : Nat) :
    ((addCursor fe fuel s locParam cu).1 = none)
  ∨ (∃ rid, addCursor fe fuel s locParam cu = (some rid, s)
        ∧ fe.usrOf cu ≠ "" ∧ lookupUsr s (fe.usrOf cu) = some rid) := by
  cases fuel with
  | zero => exact Or.inl rfl
  | succ fuel =>
    simp only [addCursor]
    split
    · exact Or.inl rfl
    · split
      · next rid husr =>
        right
        refine ⟨rid, rfl, ?_⟩
        by_cases hu : fe.usrOf cu = ""
        · rw [if_pos hu] at husr; cases husr
        · rw [if_neg hu] at husr; exact ⟨hu, husr⟩
      · exact Or.inl rfl

/-- C9.  `addCursor` returns a non-null record only when a record with
the same non-empty USR is already registered in `mCursorsByUsr` (and
then it changes nothing); whenever the USR is empty, and more generally
whenever the call changes the state (i.e. creates records), it returns
null. -/
theorem addCursor_returns_only_registered (fe : AstFE) (fuel : Nat) (s : AState)
    (locParam : Option Loc) (cu : Nat) :
    (∀ rid, (addCursor fe fuel s locParam cu).1 = some rid →
        fe.usrOf cu ≠ "" ∧ lookupUsr s (fe.usrOf cu) = some rid
          ∧ (addCursor fe fuel s locParam cu).2 = s)
  ∧ (fe.usrOf cu = "" → (addCursor fe fuel s locParam cu).1 = none)
  ∧ ((addCursor fe fuel s locParam cu).2 ≠ s → (addCursor fe fuel s locParam cu).1 = none) := by
  rcases addCursor_cases fe fuel s locParam cu with hnone | ⟨rid, heq, hu, hlk⟩
  · exact ⟨fun rid2 h => absurd h (by rw [hnone]; simp),
      fun _ => hnone, fun _ => hnone⟩
  · refine ⟨?_, ?_, ?_⟩
    · intro rid2 h
      rw [heq] at h
      have : rid = rid2 := by simpa using h
      subst this
      exact ⟨hu, hlk, by rw [heq]⟩
    · intro hu2
      exact absurd hu2 hu
    · intro hne
      exact absurd (by rw [heq]) hne

/-- Front end for the C9 witness: cursor 1 has USR "u", location (1,1,1)
and only null relatives. -/
def feW : AstFE :=
  { locOf := fun c => if c = 1 then some (Loc.mk 1 1 1) else none
  , usrOf := fun c => if c = 1 then "u" else ""
  , rangeOf := fun _ => none
  , referencedOf := fun _ => 0
  , lexicalParentOf := fun _ => 0
  , semanticParentOf := fun _ => 0
  , canonicalOf := fun _ => 0
  , definitionOf := fun _ => 0
  , specializedTemplateOf := fun _ => 0
  , overriddenOf := fun _ => []
  , isDefinitionOf := fun _ => false
  , kindSpellingOf := fun _ => ""
  , linkageOf := fun _ => ""
  , spellingOf := fun _ => ""
  , displayNameOf := fun _ => ""
  , manglingOf := fun _ => ""
  , templateKindOf := fun _ => none
  , typeOf := fun _ => 0 }

/-- The state in which record 0 is already registered under USR "u". -/
def sW : AState :=
  { records := [{ usr := "u", location := Loc.mk 1 1 1 }]
  , byUsr := [("u", 0)] }

set_option maxRecDepth 10000 in
/-- Witness for C9: looking up cursor 1 in `sW` returns the
previously-registered record 0 and leaves the state unchanged. -/
theorem addCursor_returns_only_registered_witness :
    feW.usrOf 1 ≠ "" ∧ lookupUsr sW (feW.usrOf 1) = some 0
      ∧ (addCursor feW 1 sW none 1).2 = sW :=
  (addCursor_returns_only_registered feW 1 sW none 1).1 0 (by decide)

end ClangThread

namespace ClangThread

/-- State `b` preserves the first `n` records of state `a`. -/
def PresN (n : Nat) (a b : AState) : Prop :=
  n ≤ b.records.length ∧ ∀ i, i < n → b.records.get? i = a.records.get? i

theorem presN_refl (n : Nat) (a : AState) (h : n ≤ a.records.length) : PresN n a a :=
  ⟨h, fun _ _ => rfl⟩

theorem presN_trans {n : Nat} {a b c : AState} (h1 : PresN n a b) (h2 : PresN n b c) :
    PresN n a c :=
  ⟨h2.1, fun i hi => (h2.2 i hi).trans (h1.2 i hi)⟩

theorem length_setRec (s : AState) (i : Nat) (f : CRecord → CRecord) :
    (setRec s i f).records.length = s.records.length := by
  simp [setRec]

theorem presN_setRec (n : Nat) (s : AState) (i : Nat) (f : CRecord → CRecord)
    (hn : n ≤ s.records.length) (hi : n ≤ i) : PresN n s (setRec s i f) := by
  refine ⟨by rw [length_setRec]; exact hn, fun j hj => ?_⟩
  simp only [setRec]
  exact List.get?_set_ne _ _ (by omega)

theorem presN_append (n : Nat) (s : AState) (r : CRecord) (hn : n ≤ s.records.length) :
    PresN n s { s with records := s.records ++ [r] } := by
  refine ⟨by simp; omega, fun j hj => ?_⟩
  simp only
  exact List.get?_append (by omega)

theorem presN_of_records_eq {n : Nat} {a b : AState} (h : b.records = a.records)
    (hn : n ≤ a.records.length) : PresN n a b :=
  ⟨by rw [h]; exact hn, fun i _ => by rw [h]⟩

/-- The recursive call preserves every already-existing record. -/
def RecPN (recC : AState → Nat → Option Nat × AState) : Prop :=
  ∀ st c n, n ≤ st.records.length → PresN n st (recC st c).2

theorem presN_registerStep (n : Nat) (usr : String) (rid : Nat) (s : AState)
    (hn : n ≤ s.records.length) : PresN n s (registerStep usr rid s) := by
  unfold registerStep
  split
  · exact presN_refl n s hn
  · exact presN_of_records_eq rfl hn

theorem presN_rangeStep (n : Nat) (fe : AstFE) (cu rid : Nat) (s : AState)
    (hn : n ≤ s.records.length) (hi : n ≤ rid) : PresN n s (rangeStep fe cu rid s) := by
  unfold rangeStep
  split
  · exact presN_refl n s hn
  · exact presN_setRec n s rid _ hn hi

theorem presN_referencedStep (n : Nat) (recC : AState → Nat → Option Nat × AState)
    (hrec : RecPN recC) (fe : AstFE) (cu rid : Nat) (s : AState)
    (hn : n ≤ s.records.length) (hi : n ≤ rid) : PresN n s (referencedStep recC fe cu rid s) := by
  unfold referencedStep
  split
  · have h1 := hrec s (fe.referencedOf cu) n hn
    exact presN_trans h1 (presN_setRec n _ rid _ h1.1 hi)
  · exact presN_refl n s hn

theorem presN_stringsStep (n : Nat) (fe : AstFE) (cu rid : Nat) (s : AState)
    (hn : n ≤ s.records.length) (hi : n ≤ rid) : PresN n s (stringsStep fe cu rid s) :=
  presN_setRec n s rid _ hn hi

theorem presN_templateStep (n : Nat) (fe : AstFE) (cu rid : Nat) (s : AState)
    (hn : n ≤ s.records.length) (hi : n ≤ rid) : PresN n s (templateStep fe cu rid s) := by
  unfold templateStep
  split
  · exact presN_setRec n s rid _ hn hi
  · exact presN_refl n s hn

theorem presN_overriddenStep (n : Nat) (recC : AState → Nat → Option Nat × AState)
    (hrec : RecPN recC) (rid : Nat) (hi : n ≤ rid) :
    ∀ (os : List Nat) (s : AState), n ≤ s.records.length →
      PresN n s (overriddenStep recC rid s os) := by
  intro os
  induction os with
  | nil => intro s hn; exact presN_refl n s hn
  | cons o rest ih =>
    intro s hn
    simp only [overriddenStep, List.foldl_cons]
    have h1 := hrec s o n hn
    have hstep : PresN n s
        (match (recC s o).1 with
          | some orid => setRec (recC s o).2 rid
              (fun c => { c with overridden := c.overridden ++ [orid] })
          | none => (recC s o).2) := by
      split
      · exact presN_trans h1 (presN_setRec n _ rid _ h1.1 hi)
      · exact h1
    have h2 := ih _ hstep.1
    exact presN_trans hstep (by simpa [overriddenStep] using h2)

theorem presN_canonStep (n : Nat) (recC : AState → Nat → Option Nat × AState)
    (hrec : RecPN recC) (fe : AstFE) (cu rid : Nat) (s : AState)
    (hn : n ≤ s.records.length) (hi : n ≤ rid) : PresN n s (canonStep recC fe cu rid s) := by
  unfold canonStep
  have h1 := hrec s (fe.canonicalOf cu) n hn
  exact presN_trans h1 (presN_setRec n _ rid _ h1.1 hi)

theorem presN_defStep (n : Nat) (recC : AState → Nat → Option Nat × AState)
    (hrec : RecPN recC) (fe : AstFE) (cu rid : Nat) (s : AState)
    (hn : n ≤ s.records.length) (hi : n ≤ rid) : PresN n s (defStep recC fe cu rid s) := by
  unfold defStep
  split
  · exact presN_setRec n s rid _ hn hi
  · have h1 := hrec s (fe.definitionOf cu) n hn
    exact presN_trans h1 (presN_setRec n _ rid _ h1.1 hi)

theorem presN_spzStep (n : Nat) (recC : AState → Nat → Option Nat × AState)
    (hrec : RecPN recC) (fe : AstFE) (cu rid : Nat) (s : AState)
    (hn : n ≤ s.records.length) (hi : n ≤ rid) : PresN n s (spzStep recC fe cu rid s) := by
  unfold spzStep
  have h1 := hrec s (fe.specializedTemplateOf cu) n hn
  exact presN_trans h1 (presN_setRec n _ rid _ h1.1 hi)

theorem presN_typeStep (n : Nat) (fe : AstFE) (cu rid : Nat) (s : AState)
    (hn : n ≤ s.records.length) (hi : n ≤ rid) : PresN n s (typeStep fe cu rid s) :=
  presN_setRec n s rid _ hn hi

theorem presN_lexStep1 (n : Nat) (recC : AState → Nat → Option Nat × AState)
    (hrec : RecPN recC) (fe : AstFE) (cu rid : Nat) (s : AState)
    (hn : n ≤ s.records.length) (hi : n ≤ rid) : PresN n s (lexStep1 recC fe cu rid s) := by
  unfold lexStep1
  have h1 := hrec s (fe.lexicalParentOf cu) n hn
  exact presN_trans h1 (presN_setRec n _ rid _ h1.1 hi)

theorem presN_semStep (n : Nat) (recC : AState → Nat → Option Nat × AState)
    (hrec : RecPN recC) (fe : AstFE) (cu rid : Nat) (s : AState)
    (hn : n ≤ s.records.length) (hi : n ≤ rid) : PresN n s (semStep recC fe cu rid s) := by
  unfold semStep
  have h1 := hrec s (fe.semanticParentOf cu) n hn
  exact presN_trans h1 (presN_setRec n _ rid _ h1.1 hi)

theorem presN_lexStep2 (n : Nat) (recC : AState → Nat → Option Nat × AState)
    (hrec : RecPN recC) (fe : AstFE) (cu rid : Nat) (s : AState)
    (hn : n ≤ s.records.length) (hi : n ≤ rid) : PresN n s (lexStep2 recC fe cu rid s) := by
  unfold lexStep2
  have h1 := hrec s (fe.semanticParentOf cu) n hn
  exact presN_trans h1 (presN_setRec n _ rid _ h1.1 hi)

theorem presN_addCursorTail (n : Nat) (recC : AState → Nat → Option Nat × AState)
    (hrec : RecPN recC) (fe : AstFE) (cu rid : Nat) (s : AState)
    (hn : n ≤ s.records.length) (hi : n ≤ rid) :
    PresN n s (addCursorTail recC fe cu rid s) := by
  unfold addCursorTail
  have h1 := presN_canonStep n recC hrec fe cu rid s hn hi
  have h2 := presN_trans h1 (presN_defStep n recC hrec fe cu rid _ h1.1 hi)
  have h3 := presN_trans h2 (presN_spzStep n recC hrec fe cu rid _ h2.1 hi)
  have h4 := presN_trans h3 (presN_overriddenStep n recC hrec rid hi (fe.overriddenOf cu) _ h3.1)
  exact presN_trans h4 (presN_typeStep n fe cu rid _ h4.1 hi)

theorem presN_allocStep (n : Nat) (s : AState) (loc : Loc) (usr : String)
    (hn : n ≤ s.records.length) : PresN n s (allocStep s loc usr) :=
  presN_append n s _ hn

theorem presN_preSteps (n : Nat) (recC : AState → Nat → Option Nat × AState)
    (hrec : RecPN recC) (fe : AstFE) (s : AState) (cu : Nat) (loc : Loc) (usr : String)
    (hn : n ≤ s.records.length) :
    PresN n s (preSteps recC fe s cu loc usr) := by
  unfold preSteps
  have hi : n ≤ s.records.length := hn
  have h0 := presN_allocStep n s loc usr hn
  have h1 := presN_trans h0 (presN_rangeStep n fe cu s.records.length _ h0.1 hi)
  have h2 := presN_trans h1 (presN_referencedStep n recC hrec fe cu s.records.length _ h1.1 hi)
  have h3 := presN_trans h2 (presN_registerStep n usr s.records.length _ h2.1)
  have h4 := presN_trans h3 (presN_stringsStep n fe cu s.records.length _ h3.1 hi)
  exact presN_trans h4 (presN_templateStep n fe cu s.records.length _ h4.1 hi)

theorem presN_addCursorNew (n : Nat) (recC : AState → Nat → Option Nat × AState)
    (hrec : RecPN recC) (fe : AstFE) (s : AState) (cu : Nat) (loc : Loc) (usr : String)
    (hn : n ≤ s.records.length) :
    PresN n s (addCursorNew recC fe s cu loc usr) := by
  unfold addCursorNew
  have hi : n ≤ s.records.length := hn
  have h5 := presN_preSteps n recC hrec fe s cu loc usr hn
  have h6 := presN_trans h5 (presN_lexStep1 n recC hrec fe cu s.records.length _ h5.1 hi)
  have h7 := presN_trans h6 (presN_semStep n recC hrec fe cu s.records.length _ h6.1 hi)
  have h8 := presN_trans h7 (presN_lexStep2 n recC hrec fe cu s.records.length _ h7.1 hi)
  exact presN_trans h8 (presN_addCursorTail n recC hrec fe cu s.records.length _ h8.1 hi)

theorem addCursor_presN (fe : AstFE) :
    ∀ fuel, RecPN (fun st c => addCursor fe fuel st none c) := by
  intro fuel
  induction fuel with
  | zero => intro st c n hn; exact presN_refl n st hn
  | succ fuel ih =>
    intro st c n hn
    simp only [addCursor]
    split
    · exact presN_refl n st hn
    · split
      · exact presN_refl n st hn
      · exact presN_addCursorNew n _ ih fe st c _ _ hn

end ClangThread

namespace ClangThread

theorem getRec_setRec_self (s : AState) (i : Nat) (f : CRecord → CRecord)
    (h : i < s.records.length) : getRec (setRec s i f) i = f (getRec s i) := by
  show ((s.records.set i (f (getRec s i))).get? i).getD {} = f (getRec s i)
  rw [List.get?_eq_getElem?, List.getElem?_set_eq h]
  rfl

/-- The pair of fields whose final values C6 is about. -/
def Fields2 (s : AState) (rid : Nat) : Option Nat × Option Nat :=
  ((getRec s rid).lexicalParent, (getRec s rid).semanticParent)

theorem fields2_of_presN {rid : Nat} {s b : AState} (h : PresN (rid + 1) s b) :
    Fields2 b rid = Fields2 s rid ∧ rid < b.records.length := by
  have hg := h.2 rid (by omega)
  refine ⟨?_, by have := h.1; omega⟩
  unfold Fields2 getRec
  rw [hg]

theorem fields2_setRec_keep (s : AState) (rid : Nat) (f : CRecord → CRecord)
    (hf : ∀ c, (f c).lexicalParent = c.lexicalParent ∧ (f c).semanticParent = c.semanticParent)
    (h : rid < s.records.length) :
    Fields2 (setRec s rid f) rid = Fields2 s rid := by
  unfold Fields2
  rw [getRec_setRec_self s rid f h, (hf (getRec s rid)).1, (hf (getRec s rid)).2]

theorem fields2_canonStep (recC : AState → Nat → Option Nat × AState) (hrec : RecPN recC)
    (fe : AstFE) (cu rid : Nat) (s : AState) (h : rid < s.records.length) :
    Fields2 (canonStep recC fe cu rid s) rid = Fields2 s rid
      ∧ rid < (canonStep recC fe cu rid s).records.length := by
  unfold canonStep
  have h1 := fields2_of_presN (hrec s (fe.canonicalOf cu) (rid + 1) h)
  refine ⟨?_, by rw [length_setRec]; exact h1.2⟩
  rw [fields2_setRec_keep _ rid _ (by intro c; exact ⟨rfl, rfl⟩) h1.2, h1.1]

theorem fields2_defStep (recC : AState → Nat → Option Nat × AState) (hrec : RecPN recC)
    (fe : AstFE) (cu rid : Nat) (s : AState) (h : rid < s.records.length) :
    Fields2 (defStep recC fe cu rid s) rid = Fields2 s rid
      ∧ rid < (defStep recC fe cu rid s).records.length := by
  unfold defStep
  split
  · exact ⟨fields2_setRec_keep _ rid _ (by intro c; exact ⟨rfl, rfl⟩) h, by rw [length_setRec]; exact h⟩
  · have h1 := fields2_of_presN (hrec s (fe.definitionOf cu) (rid + 1) h)
    refine ⟨?_, by rw [length_setRec]; exact h1.2⟩
    rw [fields2_setRec_keep _ rid _ (by intro c; exact ⟨rfl, rfl⟩) h1.2, h1.1]

theorem fields2_spzStep (recC : AState → Nat → Option Nat × AState) (hrec : RecPN recC)
    (fe : AstFE) (cu rid : Nat) (s : AState) (h : rid < s.records.length) :
    Fields2 (spzStep recC fe cu rid s) rid = Fields2 s rid
      ∧ rid < (spzStep recC fe cu rid s).records.length := by
  unfold spzStep
  have h1 := fields2_of_presN (hrec s (fe.specializedTemplateOf cu) (rid + 1) h)
  refine ⟨?_, by rw [length_setRec]; exact h1.2⟩
  rw [fields2_setRec_keep _ rid _ (by intro c; exact ⟨rfl, rfl⟩) h1.2, h1.1]

theorem fields2_typeStep (fe : AstFE) (cu rid : Nat) (s : AState)
    (h : rid < s.records.length) :
    Fields2 (typeStep fe cu rid s) rid = Fields2 s rid
      ∧ rid < (typeStep fe cu rid s).records.length := by
  unfold typeStep
  exact ⟨fields2_setRec_keep _ rid _ (by intro c; exact ⟨rfl, rfl⟩) h, by rw [length_setRec]; exact h⟩

theorem fields2_overriddenStep (recC : AState → Nat → Option Nat × AState)
    (hrec : RecPN recC) (rid : Nat) :
    ∀ (os : List Nat) (s : AState), rid < s.records.length →
      Fields2 (overriddenStep recC rid s os) rid = Fields2 s rid
        ∧ rid < (overriddenStep recC rid s os).records.length := by
  intro os
  induction os with
  | nil => intro s h; exact ⟨rfl, h⟩
  | cons o rest ih =>
    intro s h
    simp only [overriddenStep, List.foldl_cons]
    have h1 := fields2_of_presN (hrec s o (rid + 1) h)
    have hstep : Fields2
        (match (recC s o).1 with
          | some orid => setRec (recC s o).2 rid
              (fun c => { c with overridden := c.overridden ++ [orid] })
          | none => (recC s o).2) rid = Fields2 s rid
        ∧ rid < (match (recC s o).1 with
          | some orid => setRec (recC s o).2 rid
              (fun c => { c with overridden := c.overridden ++ [orid] })
          | none => (recC s o).2).records.length := by
      split
      · refine ⟨?_, by rw [length_setRec]; exact h1.2⟩
        rw [fields2_setRec_keep _ rid _ (by intro c; exact ⟨rfl, rfl⟩) h1.2, h1.1]
      · exact h1
    have h2 := ih _ hstep.2
    refine ⟨?_, by simpa [overriddenStep] using h2.2⟩
    rw [(by simpa [overriddenStep] using h2.1 :
      Fields2 (List.foldl _ _ rest) rid = Fields2 _ rid), hstep.1]

theorem fields2_addCursorTail (recC : AState → Nat → Option Nat × AState)
    (hrec : RecPN recC) (fe : AstFE) (cu rid : Nat) (s : AState)
    (h : rid < s.records.length) :
    Fields2 (addCursorTail recC fe cu rid s) rid = Fields2 s rid := by
  unfold addCursorTail
  have h1 := fields2_canonStep recC hrec fe cu rid s h
  have h2 := fields2_defStep recC hrec fe cu rid _ h1.2
  have h3 := fields2_spzStep recC hrec fe cu rid _ h2.2
  have h4 := fields2_overriddenStep recC hrec rid (fe.overriddenOf cu) _ h3.2
  have h5 := fields2_typeStep fe cu rid _ h4.2
  rw [h5.1, h4.1, h3.1, h2.1, h1.1]

end ClangThread

namespace ClangThread

theorem length_le_recCall (recC : AState → Nat → Option Nat × AState) (hrec : RecPN recC)
    (st : AState) (c : Nat) :
    st.records.length ≤ ((recC st c).2).records.length :=
  (hrec st c st.records.length (Nat.le_refl _)).1

theorem length_rangeStep (fe : AstFE) (cu rid : Nat) (s : AState) :
    (rangeStep fe cu rid s).records.length = s.records.length := by
  unfold rangeStep
  split
  · rfl
  · rw [length_setRec]

theorem records_registerStep (usr : String) (rid : Nat) (s : AState) :
    (registerStep usr rid s).records = s.records := by
  unfold registerStep setUsr
  split
  · rfl
  · rfl

theorem length_le_referencedStep (recC : AState → Nat → Option Nat × AState)
    (hrec : RecPN recC) (fe : AstFE) (cu rid : Nat) (s : AState) :
    s.records.length ≤ (referencedStep recC fe cu rid s).records.length := by
  unfold referencedStep
  split
  · rw [length_setRec]
    exact length_le_recCall recC hrec s _
  · exact Nat.le_refl _

theorem length_stringsStep (fe : AstFE) (cu rid : Nat) (s : AState) :
    (stringsStep fe cu rid s).records.length = s.records.length :=
  length_setRec s rid _

theorem length_templateStep (fe : AstFE) (cu rid : Nat) (s : AState) :
    (templateStep fe cu rid s).records.length = s.records.length := by
  unfold templateStep
  split
  · rw [length_setRec]
  · rfl

theorem lt_length_preSteps (recC : AState → Nat → Option Nat × AState) (hrec : RecPN recC)
    (fe : AstFE) (s : AState) (cu : Nat) (loc : Loc) (usr : String) :
    s.records.length < (preSteps recC fe s cu loc usr).records.length := by
  unfold preSteps
  have h0 : (allocStep s loc usr).records.length = s.records.length + 1 := by
    simp [allocStep]
  have h1 := length_rangeStep fe cu s.records.length (allocStep s loc usr)
  have h2 := length_le_referencedStep recC hrec fe cu s.records.length
    (rangeStep fe cu s.records.length (allocStep s loc usr))
  have h3 := congrArg List.length (records_registerStep usr s.records.length
    (referencedStep recC fe cu s.records.length
      (rangeStep fe cu s.records.length (allocStep s loc usr))))
  have h4 := length_stringsStep fe cu s.records.length
    (registerStep usr s.records.length
      (referencedStep recC fe cu s.records.length
        (rangeStep fe cu s.records.length (allocStep s loc usr))))
  have h5 := length_templateStep fe cu s.records.length
    (stringsStep fe cu s.records.length
      (registerStep usr s.records.length
        (referencedStep recC fe cu s.records.length
          (rangeStep fe cu s.records.length (allocStep s loc usr)))))
  omega

theorem length_le_lexStep1 (recC : AState → Nat → Option Nat × AState) (hrec : RecPN recC)
    (fe : AstFE) (cu rid : Nat) (s : AState) :
    s.records.length ≤ (lexStep1 recC fe cu rid s).records.length := by
  unfold lexStep1
  rw [length_setRec]
  exact length_le_recCall recC hrec s _

theorem length_le_semStep (recC : AState → Nat → Option Nat × AState) (hrec : RecPN recC)
    (fe : AstFE) (cu rid : Nat) (s : AState) :
    s.records.length ≤ (semStep recC fe cu rid s).records.length := by
  unfold semStep
  rw [length_setRec]
  exact length_le_recCall recC hrec s _

theorem fields2_fst (s : AState) (rid : Nat) :
    (Fields2 s rid).1 = (getRec s rid).lexicalParent := rfl

theorem fields2_snd (s : AState) (rid : Nat) :
    (Fields2 s rid).2 = (getRec s rid).semanticParent := rfl

theorem addCursorNew_fields2 (recC : AState → Nat → Option Nat × AState) (hrec : RecPN recC)
    (fe : AstFE) (s : AState) (cu : Nat) (loc : Loc) (usr : String) :
    (getRec (addCursorNew recC fe s cu loc usr) s.records.length).lexicalParent
      = (recC (semStep recC fe cu s.records.length
          (lexStep1 recC fe cu s.records.length (preSteps recC fe s cu loc usr)))
          (fe.semanticParentOf cu)).1
  ∧ (getRec (addCursorNew recC fe s cu loc usr) s.records.length).semanticParent
      = (recC (lexStep1 recC fe cu s.records.length (preSteps recC fe s cu loc usr))
          (fe.semanticParentOf cu)).1 := by
  have hP := lt_length_preSteps recC hrec fe s cu loc usr
  have hL := Nat.lt_of_lt_of_le hP (length_le_lexStep1 recC hrec fe cu s.records.length _)
  have hS := Nat.lt_of_lt_of_le hL (length_le_semStep recC hrec fe cu s.records.length _)
  have hS2 := Nat.lt_of_lt_of_le hS (length_le_recCall recC hrec
    (semStep recC fe cu s.records.length
      (lexStep1 recC fe cu s.records.length (preSteps recC fe s cu loc usr)))
    (fe.semanticParentOf cu))
  have hL2 := Nat.lt_of_lt_of_le hL (length_le_recCall recC hrec
    (lexStep1 recC fe cu s.records.length (preSteps recC fe s cu loc usr))
    (fe.semanticParentOf cu))
  have h82 : s.records.length < (lexStep2 recC fe cu s.records.length
      (semStep recC fe cu s.records.length
        (lexStep1 recC fe cu s.records.length (preSteps recC fe s cu loc usr)))).records.length := by
    unfold lexStep2
    rw [length_setRec]
    exact hS2
  have htail := fields2_addCursorTail recC hrec fe cu s.records.length _ h82
  constructor
  · show (getRec (addCursorTail recC fe cu s.records.length
        (lexStep2 recC fe cu s.records.length
          (semStep recC fe cu s.records.length
            (lexStep1 recC fe cu s.records.length (preSteps recC fe s cu loc usr)))))
        s.records.length).lexicalParent = _
    rw [← fields2_fst, htail, fields2_fst]
    unfold lexStep2
    rw [getRec_setRec_self _ _ _ hS2]
  · show (getRec (addCursorTail recC fe cu s.records.length
        (lexStep2 recC fe cu s.records.length
          (semStep recC fe cu s.records.length
            (lexStep1 recC fe cu s.records.length (preSteps recC fe s cu loc usr)))))
        s.records.length).semanticParent = _
    rw [← fields2_snd, htail, fields2_snd]
    unfold lexStep2
    rw [getRec_setRec_self _ _ _ hS2]
    show (getRec ((recC (semStep recC fe cu s.records.length
        (lexStep1 recC fe cu s.records.length (preSteps recC fe s cu loc usr)))
        (fe.semanticParentOf cu)).2) s.records.length).semanticParent = _
    have hpres := fields2_of_presN (hrec
      (semStep recC fe cu s.records.length
        (lexStep1 recC fe cu s.records.length (preSteps recC fe s cu loc usr)))
      (fe.semanticParentOf cu) (s.records.length + 1) hS)
    rw [← fields2_snd, hpres.1, fields2_snd]
    unfold semStep
    rw [getRec_setRec_self _ _ _ hL2]

end ClangThread

namespace ClangThread

/-- C6.  In `addCursor`, `c->lexicalParent` is written twice: first
from `clang_getCursorLexicalParent` (`lexStep1`), then — after the
`semanticParent` assignment — a second time from
`clang_getCursorSemanticParent` (`lexStep2`).  Hence, whenever a new
record is created, the record's final `lexicalParent` is the node
obtained by calling `addCursor` on the cursor's *semantic* parent (the
same cursor the `semanticParent` field was computed from), not on its
lexical parent. -/
theorem addCursor_lexicalParent_overwritten (fe : AstFE) (fuel : Nat) (s : AState)
    (locParam : Option Loc) (cu : Nat) (loc : Loc)
    (hloc : (match locParam with | some l => some l | none => fe.locOf cu) = some loc)
    (hnew : (if fe.usrOf cu = "" then none else lookupUsr s (fe.usrOf cu)) = none) :
    (getRec (addCursor fe (Nat.succ fuel) s locParam cu).2 s.records.length).lexicalParent
      = (addCursor fe fuel
          (semStep (fun st c => addCursor fe fuel st none c) fe cu s.records.length
            (lexStep1 (fun st c => addCursor fe fuel st none c) fe cu s.records.length
              (preSteps (fun st c => addCursor fe fuel st none c) fe s cu loc (fe.usrOf cu))))
          none (fe.semanticParentOf cu)).1
  ∧ (getRec (addCursor fe (Nat.succ fuel) s locParam cu).2 s.records.length).semanticParent
      = (addCursor fe fuel
          (lexStep1 (fun st c => addCursor fe fuel st none c) fe cu s.records.length
            (preSteps (fun st c => addCursor fe fuel st none c) fe s cu loc (fe.usrOf cu)))
          none (fe.semanticParentOf cu)).1 := by
  have hrun : addCursor fe (Nat.succ fuel) s locParam cu
      = (none, addCursorNew (fun st c => addCursor fe fuel st none c) fe s cu loc
          (fe.usrOf cu)) := by
    simp only [addCursor, hloc, hnew]
  rw [hrun]
  exact addCursorNew_fields2 (fun st c => addCursor fe fuel st none c)
    (addCursor_presN fe fuel) fe s cu loc (fe.usrOf cu)

set_option maxRecDepth 10000 in
/-- Witness for C6: a fresh state and the cursor 1 of `feW` (USR "u",
all relatives null). -/
theorem addCursor_lexicalParent_overwritten_witness :
    (getRec (addCursor feW (Nat.succ 1) ({} : AState) (some (Loc.mk 1 1 1)) 1).2
        (({} : AState).records.length)).lexicalParent
      = (addCursor feW 1
          (semStep (fun st c => addCursor feW 1 st none c) feW 1 (({} : AState).records.length)
            (lexStep1 (fun st c => addCursor feW 1 st none c) feW 1 (({} : AState).records.length)
              (preSteps (fun st c => addCursor feW 1 st none c) feW ({} : AState) 1
                (Loc.mk 1 1 1) (feW.usrOf 1))))
          none (feW.semanticParentOf 1)).1
  ∧ (getRec (addCursor feW (Nat.succ 1) ({} : AState) (some (Loc.mk 1 1 1)) 1).2
        (({} : AState).records.length)).semanticParent
      = (addCursor feW 1
          (lexStep1 (fun st c => addCursor feW 1 st none c) feW 1 (({} : AState).records.length)
            (preSteps (fun st c => addCursor feW 1 st none c) feW ({} : AState) 1
              (Loc.mk 1 1 1) (feW.usrOf 1)))
          none (feW.semanticParentOf 1)).1 :=
  addCursor_lexicalParent_overwritten feW 1 ({} : AState) (some (Loc.mk 1 1 1)) 1
    (Loc.mk 1 1 1) rfl (by decide)

end ClangThread
